import Mathlib

/-!
Verification of the View Assist integration (view_assist_integration_uk).

Part A embeds the browser-side JavaScript module
`custom_components/view_assist/js_modules/view_assist.js`:
the `strftime` helpers (`zeroPad`, the 12-hour directives), the `Clock`
element's `display_time`, and the `CountdownTimer` element's
`display_countdown` / `start_timer`.

Part B models the server-side timer engine (TimerRecord, TimerStore,
TimerScheduler, TimerService) from the specification, since its source is
not part of this file set.

Times are epoch milliseconds as integers (JavaScript `Date.getTime()`);
the fractional-second quantities the JS keeps in floating point are
represented exactly in `ℚ`.
-/

namespace ViewAssist

/-- Numeric value of a decimal digit character. -/
def digitVal (c : Char) : ℕ := c.toNat - 48

/-- Value of a list of decimal digit characters, most significant first. -/
def charsToNat (l : List Char) : ℕ := l.foldl (fun a c => 10 * a + digitVal c) 0

/-- Decimal digit list of a natural number, most significant first.
This models JavaScript number-to-string conversion (`'' + n`, `String(n)`)
for the nonnegative integers the source feeds it. -/
def decDigits (n : ℕ) : List Char :=
  if _h : n < 10 then [Nat.digitChar n]
  else decDigits (n / 10) ++ [Nat.digitChar (n % 10)]
decreasing_by exact Nat.div_lt_self (by omega) (by omega)

/-- JavaScript `String(n)` for a natural number. -/
def jsNatRepr (n : ℕ) : String := (decDigits n).asString

/-- JavaScript `s.padStart(n, c)`: left-pad `s` with `c` up to length `n`. -/
def padStart (s : String) (n : ℕ) (c : Char) : String :=
  (List.replicate (n - s.data.length) c ++ s.data).asString

/-- JavaScript `Math.round` (half rounds toward positive infinity). -/
def jsRound (q : ℚ) : ℤ := ⌊q + 1 / 2⌋

/-- `Math.round(ms / 1000)` computed purely on integer milliseconds.
`jsRound_ms_eq` below proves this equals `jsRound ((ms : ℚ) / 1000)`. -/
def jsRoundMs (ms : ℤ) : ℤ := (ms + 500) / 1000

/-- From `strftime` (view_assist.js line 88): `zeroPad(nNum, nPad)` is
`('' + (Math.pow(10, nPad) + nNum)).slice(1)`. -/
def zeroPad (nNum nPad : ℕ) : String :=
  ((decDigits (10 ^ nPad + nNum)).drop 1).asString

/-- From `strftime` (lines 105 and 108): the hour used by the `%I` and `%l`
directives is `(nHour + 11) % 12 + 1`. -/
def hour12 (nHour : ℕ) : ℕ := (nHour + 11) % 12 + 1

/-- From `strftime` (line 111): `%p` is `'AM'` when `nHour < 12`, else `'PM'`. -/
def ampm (nHour : ℕ) : String := if nHour < 12 then "AM" else "PM"

/-- The reference instant used by both display elements: local clock shifted
by `server_time_delta` when `server_time` is set, the raw local clock
otherwise (view_assist.js lines 161-165 and 215-218). -/
def refInstant (server_time : Bool) (local_now delta : ℤ) : ℤ :=
  if server_time then local_now + delta else local_now

/-- `Clock.display_time` (lines 156-166), modelled by the arguments of its
`strftime` call: the format string used (attribute value, defaulting to
`"%H:%M"`) and the epoch-millisecond instant of the `Date` it formats. -/
def display_time (server_time : Bool) (format : Option String)
    (local_now delta : ℤ) : String × ℤ :=
  (format.getD "%H:%M", refInstant server_time local_now delta)

/-- Output of `CountdownTimer.display_countdown`: the text written to the
element and the returned `distance` (seconds, fractional). -/
structure CountdownOut where
  text : String
  distance : ℚ
deriving DecidableEq

/-- `CountdownTimer.display_countdown` (view_assist.js lines 213-240),
line by line.  `Math.round(distance)` on the exact real `distance` is
computed as `jsRoundMs` on integer milliseconds (see `jsRound_ms_eq`);
`Math.floor` on a nonnegative integer quotient is `ℕ` division. -/
def display_countdown (expires : ℤ) (server_time : Bool)
    (local_now delta : ℤ) : CountdownOut :=
  let dt_now : ℤ := refInstant server_time local_now delta
  let distance : ℚ := ((expires : ℚ) - (dt_now : ℚ)) / 1000
  let disp_distance : ℕ := (jsRoundMs (expires - dt_now)).natAbs
  let days : ℕ := disp_distance / (60 * 60 * 24)
  let hours : String := padStart (jsNatRepr (disp_distance % (60 * 60 * 24) / (60 * 60))) 2 '0'
  let minutes : String := padStart (jsNatRepr (disp_distance % (60 * 60) / 60)) 2 '0'
  let seconds : String := padStart (jsNatRepr (disp_distance % 60)) 2 '0'
  let sign : String := if jsRoundMs (expires - dt_now) < 0 then "-" else ""
  let text : String :=
    if days ≠ 0 then
      sign ++ jsNatRepr days ++ "d " ++ hours ++ ":" ++ minutes ++ ":" ++ seconds
    else
      sign ++ hours ++ ":" ++ minutes ++ ":" ++ seconds
  ⟨text, distance⟩

/-- The signed millisecond distance from the reference instant to the
expiry timestamp (the numerator of the JS `distance` computation). -/
def distMs (expires : ℤ) (server_time : Bool) (local_now delta : ℤ) : ℤ :=
  expires - refInstant server_time local_now delta

/-- The absolute value `d` of the rounded whole-second distance, the basis
of the day/hour/minute/second breakdown. -/
def distAbsSec (expires : ℤ) (server_time : Bool) (local_now delta : ℤ) : ℕ :=
  (jsRoundMs (distMs expires server_time local_now delta)).natAbs

/-- JavaScript whitespace characters stripped by `ToNumber` on strings
(the common ones: space, tab, newline, carriage return, form feed,
vertical tab). -/
def isJsSpace (c : Char) : Bool :=
  c = ' ' || c = '\t' || c = '\n' || c = '\r' || c = '\x0c' || c = '\x0b'

/-- Fractional value of a digit list read after a decimal point. -/
def fracVal (l : List Char) : ℚ :=
  l.foldr (fun c a => ((digitVal c : ℚ) + a) / 10) 0

/-- JavaScript `ToNumber` on a string, for the decimal forms the source can
meet: optional surrounding whitespace, optional sign, decimal digits with an
optional fractional part; the empty string is `0`; anything else (`NaN`)
is `none`.  (Hex/exponent forms are not modelled; they are nonzero or
`NaN` either way, so the `!= 0` branch decision is unaffected.) -/
def jsToNumber (s : String) : Option ℚ :=
  let t := (s.data.dropWhile isJsSpace).reverse.dropWhile isJsSpace |>.reverse
  if t = [] then some 0
  else
    let (sgn, rest) :=
      match t with
      | '+' :: r => ((1 : ℚ), r)
      | '-' :: r => ((-1 : ℚ), r)
      | r => ((1 : ℚ), r)
    let intPart := rest.takeWhile Char.isDigit
    let rest2 := rest.dropWhile Char.isDigit
    match rest2 with
    | [] => if intPart = [] then none else some (sgn * charsToNat intPart)
    | '.' :: frac =>
      if frac.all Char.isDigit ∧ (intPart ≠ [] ∨ frac ≠ []) then
        some (sgn * ((charsToNat intPart : ℚ) + fracVal frac))
      else none
    | _ => none

/-- The test `this.expires != 0` (line 243): the attribute value (a string,
or absent) is loosely compared with the number `0`; a string is converted
with `ToNumber`, `NaN` compares unequal, and an absent attribute (`null`)
is unequal to `0`. -/
def expiresNeZero (expires : Option String) : Bool :=
  match expires with
  | none => true
  | some s =>
    match jsToNumber s with
    | some q => decide (q ≠ 0)
    | none => true

/-- Outcome of `CountdownTimer.start_timer`: the text written immediately
(if any) and the repeat delay of the interval it registers (if any). -/
structure StartOut where
  text : Option String
  intervalMs : Option ℕ
deriving DecidableEq

/-- `CountdownTimer.start_timer` (view_assist.js lines 242-257): when
`this.expires != 0` it renders the countdown and registers a 500 ms
repeating interval; otherwise it writes `no_timer_text` and registers
nothing. -/
def start_timer (expires : Option String) (no_timer_text : String) : StartOut :=
  if expiresNeZero expires then ⟨none, some 500⟩
  else ⟨some no_timer_text, none⟩

/-- `VAData` (lines 260-266): the browser-global state; only
`server_time_delta` matters here. -/
structure VAData where
  server_time_delta : ℤ
deriving DecidableEq

/-- `ViewAssist.set_time_delta` (lines 557-566): when connected, stores the
server-reported delta in `variables.server_time_delta`; otherwise does
nothing. -/
def set_time_delta (v : VAData) (connected : Bool) (delta : ℤ) : VAData :=
  if connected then { v with server_time_delta := delta } else v

/-! ## Part B: the timer engine, modelled from the specification

The integration's server-side timer engine (TimerRecord, TimerStore,
TimerScheduler, TimerService) is not among the source files; every
definition below is built from the specification's §3-§7 wording. -/

/-- Modelled from the spec (§3): `timer_class` is a closed enumeration
{alarm, timer, reminder, command}. -/
inductive TimerClass
  | alarm
  | timer
  | reminder
  | command
deriving DecidableEq

/-- Modelled from the spec (§3): `timer_type` is one of
{absolute-time, relative-interval}. -/
inductive TimerType
  | absoluteTime
  | relativeInterval
deriving DecidableEq

/-- Modelled from the spec (§3): `status` is one of
{running, warning-fired, expired, cancelled, snoozed}. -/
inductive TimerStatus
  | running
  | warningFired
  | expired
  | cancelled
  | snoozed
deriving DecidableEq

/-- Modelled from the spec (§3): the TimerRecord entity.  Timestamps are
integers on the process-wide reference clock (seconds); `pre_expire_warning`
is in seconds, `0` disables the warning; `extra_info` is an open
string-keyed mapping. -/
structure TimerRecord where
  id : ℕ
  device_id : String
  timer_class : TimerClass
  timer_type : TimerType
  name : Option String
  expires : ℤ
  original_expiry : ℤ
  pre_expire_warning : ℕ
  created_at : ℤ
  updated_at : ℤ
  status : TimerStatus
  extra_info : List (String × String)
deriving DecidableEq

/-- Modelled from the spec (§6): lifecycle event actions. -/
inductive EvAction
  | started
  | warning
  | expired
  | cancelled
  | snoozed
deriving DecidableEq

/-- Modelled from the spec (§6): one published lifecycle event, with the
record id it concerns and the reference-clock time it was emitted at. -/
structure Event where
  action : EvAction
  timerId : ℕ
  time : ℤ
deriving DecidableEq

/-- Modelled from the spec (§7): the error taxonomy. -/
inductive TimerError
  | timeParse
  | notFound
  | invalidState
  | invalidSelection
deriving DecidableEq

/-- Modelled from the spec (§2, §6): the external TimeResolver returns
either an absolute target timestamp or a duration offset from now. -/
inductive ResolvedTime
  | absolute (t : ℤ)
  | interval (d : ℕ)
deriving DecidableEq

/-- Modelled from the spec (§2, §4.1): the whole engine state — the
TimerStore's records in creation order, the fresh-id counter (time-ordered
unique ids), the reference clock, and the stream of published events. -/
structure EngineState where
  store : List TimerRecord
  nextId : ℕ
  now : ℤ
  events : List Event
deriving DecidableEq

/-- Modelled from the spec (§4.3): `set_timer`.  A failed time resolution
is `TimeParseError` and creates nothing; otherwise a fresh time-ordered id
is generated and a record with `status=running`, `original_expiry=expires`
and the caller's `extra` merged into `extra_info` is inserted, with a
`started` event published. -/
def set_timer (s : EngineState) (device_id : String) (tclass : TimerClass)
    (resolved : Option ResolvedTime) (name : Option String)
    (extra : List (String × String)) (preW : ℕ) :
    Except TimerError (ℕ × TimerRecord) × EngineState :=
  match resolved with
  | none => (.error .timeParse, s)
  | some rt =>
    let ttype : TimerType :=
      match rt with
      | .absolute _ => .absoluteTime
      | .interval _ => .relativeInterval
    let expires : ℤ :=
      match rt with
      | .absolute t => t
      | .interval d => s.now + (d : ℤ)
    let r : TimerRecord :=
      { id := s.nextId
        device_id := device_id
        timer_class := tclass
        timer_type := ttype
        name := name
        expires := expires
        original_expiry := expires
        pre_expire_warning := preW
        created_at := s.now
        updated_at := s.now
        status := .running
        extra_info := extra }
    (.ok (r.id, r),
      { s with
        store := s.store ++ [r]
        nextId := s.nextId + 1
        events := s.events ++ [⟨.started, r.id, s.now⟩] })

/-- Modelled from the spec (§4.4): the selection predicate of
`cancel_timer`, honoring exactly one mode with precedence
`remove_all` > `timer_id` > `device_id`. -/
def cancelSelects (tid : Option ℕ) (dev : Option String) (remove_all : Bool)
    (r : TimerRecord) : Bool :=
  if remove_all then true
  else
    match tid with
    | some t => r.id == t
    | none =>
      match dev with
      | some d => r.device_id == d
      | none => false

/-- Modelled from the spec (§4.4, §7): `cancel_timer`.  With no selection
argument at all it is `InvalidSelectionError`; otherwise the selected
records are removed from the store, one `cancelled` event is emitted per
removed record, and the result is `true` iff at least one was removed
(`false` is a normal result, not an error). -/
def cancel_timer (s : EngineState) (tid : Option ℕ) (dev : Option String)
    (remove_all : Bool) : Except TimerError Bool × EngineState :=
  if remove_all = false ∧ tid = none ∧ dev = none then
    (.error .invalidSelection, s)
  else
    let removed := s.store.filter (cancelSelects tid dev remove_all)
    (.ok (removed ≠ []),
      { s with
        store := s.store.filter (fun r => ¬ cancelSelects tid dev remove_all r)
        events := s.events ++ removed.map (fun r => ⟨.cancelled, r.id, s.now⟩) })

/-- Modelled from the spec (§4.5, §7): `snooze_timer`.  An unknown id is
`NotFoundError`; a record whose status is not `expired` is
`InvalidStateError` and nothing is modified; otherwise the snooze duration
is resolved relative to now, `expires` is rewritten to `now + duration`,
`status` returns to `running`, `original_expiry` is untouched, the applied
snooze duration is recorded in `extra_info`, and a `snoozed` event is
published. -/
def snooze_timer (s : EngineState) (tid : ℕ) (resolvedDur : Option ℕ) :
    Except TimerError TimerRecord × EngineState :=
  match s.store.find? (fun r => r.id == tid) with
  | none => (.error .notFound, s)
  | some r =>
    if r.status = .expired then
      match resolvedDur with
      | none => (.error .timeParse, s)
      | some d =>
        let r' : TimerRecord :=
          { r with
            status := .running
            expires := s.now + (d : ℤ)
            updated_at := s.now
            extra_info := r.extra_info ++ [("snooze_duration", Nat.repr d)] }
        (.ok r',
          { s with
            store := s.store.map (fun q => if q.id == tid then r' else q)
            events := s.events ++ [⟨.snoozed, tid, s.now⟩] })
    else (.error .invalidState, s)

/-- Modelled from the spec (§4.6): `get_timers` — a pure read filtering by
exact `timer_id` and/or `device_id`, excluding `expired`/`cancelled`
records unless `include_expired` is set. -/
def get_timers (s : EngineState) (tid : Option ℕ) (dev : Option String)
    (include_expired : Bool) : List TimerRecord :=
  s.store.filter (fun r =>
    (match tid with
     | some t => r.id == t
     | none => true) &&
    (match dev with
     | some d => r.device_id == d
     | none => true) &&
    (include_expired || !(r.status == .expired || r.status == .cancelled)))

/-- Modelled from the spec (§4.2): what the scheduler does to one record
when the clock reaches `now`: a running record whose warning point
(`expires - pre_expire_warning`, enabled when the warning is nonzero) has
been reached but whose expiry has not becomes `warning-fired` and emits a
`warning` event; a running or warning-fired record whose expiry has been
reached becomes `expired` and emits an `expired` event; terminal records
have no registration and nothing fires for them. -/
def fireRecord (now : ℤ) (r : TimerRecord) : TimerRecord × List Event :=
  if r.status = .running ∧ 0 < r.pre_expire_warning ∧
      r.expires - (r.pre_expire_warning : ℤ) ≤ now ∧ now < r.expires then
    ({ r with status := .warningFired, updated_at := now }, [⟨.warning, r.id, now⟩])
  else if (r.status = .running ∨ r.status = .warningFired) ∧ r.expires ≤ now then
    ({ r with status := .expired, updated_at := now }, [⟨.expired, r.id, now⟩])
  else (r, [])

/-- Modelled from the spec (§4.2, §5): one step of the scheduling loop,
advancing the reference clock by one second and firing every wake point
that is due, updating each record's status in the store and publishing the
corresponding events. -/
def tick (s : EngineState) : EngineState :=
  let now := s.now + 1
  let fired := s.store.map (fireRecord now)
  { s with
    now := now
    store := fired.map Prod.fst
    events := s.events ++ (fired.map Prod.snd).flatten }

/-- Modelled from the spec (§5): the actions that can interleave — service
calls from arbitrary concurrent callers and the scheduler's dispatch loop.
Time-expression resolution is carried already resolved (the TimeResolver
is external and synchronous). -/
inductive Op
  | tick
  | setTimer (device_id : String) (tclass : TimerClass)
      (resolved : Option ResolvedTime) (name : Option String)
      (extra : List (String × String)) (preW : ℕ)
  | cancel (tid : Option ℕ) (dev : Option String) (remove_all : Bool)
  | snooze (tid : ℕ) (resolvedDur : Option ℕ)

/-- State effect of one interleaved action. -/
def step (s : EngineState) : Op → EngineState
  | .tick => tick s
  | .setTimer d c r n e w => (set_timer s d c r n e w).2
  | .cancel t d a => (cancel_timer s t d a).2
  | .snooze t d => (snooze_timer s t d).2

/-- State after a whole interleaving of actions. -/
def runOps (s : EngineState) (ops : List Op) : EngineState := ops.foldl step s

/-- Events for timer `T` that claim a wake point fired: `warning` or
`expired` events carrying id `T`. -/
def wakeEventsFor (T : ℕ) (l : List Event) : List Event :=
  l.filter (fun e => e.timerId == T &&
    (e.action == .warning || e.action == .expired))

/-- Well-formedness of the engine state: ids in the store are pairwise
distinct and all below the fresh-id counter (the spec's §3 id-uniqueness
and time-ordered generation invariants). -/
def WF (s : EngineState) : Prop :=
  (s.store.map TimerRecord.id).Nodup ∧ ∀ r ∈ s.store, r.id < s.nextId

/-- An action that targets timer `T` (owned by device `dev`) with a cancel
or snooze: exactly the actions C6/C7 exclude from the interleaving. -/
def touches (T : ℕ) (dev : String) : Op → Bool
  | .cancel tid dsel all => all || tid == some T || (tid == none && dsel == some dev)
  | .snooze t _ => t == T
  | _ => false

/-- Invariant tracking one watched timer `T` (expiry `E`, warning lead
`W`, device `dev`) through the lifecycle claimed by C7: well-formed ids,
and the record is in exactly one of the phases running (before the warning
instant, no wake event yet), warning-fired (warning emitted at `E - W`,
before expiry) or expired (warning then expiry emitted, at `E - W` and
`E`, in that order). -/
def C7Inv (T : ℕ) (E : ℤ) (W : ℕ) (dev : String) (s : EngineState) : Prop :=
  (s.store.map TimerRecord.id).Nodup ∧
  (∀ r ∈ s.store, r.id < s.nextId) ∧
  ∃ r ∈ s.store, r.id = T ∧ r.expires = E ∧ r.pre_expire_warning = W ∧
    r.device_id = dev ∧
    ((r.status = .running ∧ s.now < E - (W : ℤ) ∧ wakeEventsFor T s.events = []) ∨
     (r.status = .warningFired ∧ s.now < E ∧
        wakeEventsFor T s.events = [⟨.warning, T, E - (W : ℤ)⟩]) ∨
     (r.status = .expired ∧
        wakeEventsFor T s.events = [⟨.warning, T, E - (W : ℤ)⟩, ⟨.expired, T, E⟩]))

/-- A sample expired record, used to exercise the service operations. -/
def sampleExpired : TimerRecord :=
  { id := 0
    device_id := "dev1"
    timer_class := .timer
    timer_type := .relativeInterval
    name := none
    expires := 10
    original_expiry := 10
    pre_expire_warning := 0
    created_at := 0
    updated_at := 10
    status := .expired
    extra_info := [] }

/-- A sample running record. -/
def sampleRunning : TimerRecord :=
  { id := 1
    device_id := "dev1"
    timer_class := .alarm
    timer_type := .absoluteTime
    name := some "wake"
    expires := 100
    original_expiry := 100
    pre_expire_warning := 0
    created_at := 0
    updated_at := 0
    status := .running
    extra_info := [] }

/-- A sample engine state holding the two records above. -/
def sampleState : EngineState :=
  { store := [sampleExpired, sampleRunning]
    nextId := 2
    now := 20
    events := [] }

/-- A sample running record with a warning configured: created at time 0,
expires at 5, warning 2 seconds before expiry. -/
def sampleWarn : TimerRecord :=
  { id := 0
    device_id := "dev1"
    timer_class := .timer
    timer_type := .relativeInterval
    name := none
    expires := 5
    original_expiry := 5
    pre_expire_warning := 2
    created_at := 0
    updated_at := 0
    status := .running
    extra_info := [] }

/-- A sample engine state holding just `sampleWarn`, at time 0. -/
def sampleWarnState : EngineState :=
  { store := [sampleWarn]
    nextId := 1
    now := 0
    events := [] }

/-! ## Lemmas: decimal digit strings -/

lemma decDigits_of_lt {n : ℕ} (h : n < 10) : decDigits n = [Nat.digitChar n] := by
  rw [decDigits]
  simp [h]

lemma decDigits_of_ge {n : ℕ} (h : 10 ≤ n) :
    decDigits n = decDigits (n / 10) ++ [Nat.digitChar (n % 10)] := by
  rw [decDigits]
  simp [Nat.not_lt_of_le h]

lemma digitVal_digitChar {n : ℕ} (h : n < 10) : digitVal (Nat.digitChar n) = n := by
  interval_cases n <;> decide

lemma isDigit_digitChar {n : ℕ} (h : n < 10) : (Nat.digitChar n).isDigit = true := by
  interval_cases n <;> decide

lemma charsToNat_nil : charsToNat [] = 0 := rfl

lemma charsToNat_foldl (l : List Char) :
    ∀ a : ℕ, l.foldl (fun a c => 10 * a + digitVal c) a =
      a * 10 ^ l.length + charsToNat l := by
  induction l with
  | nil => intro a; simp [charsToNat]
  | cons c t ih =>
    intro a
    simp only [List.foldl_cons, charsToNat, List.length_cons]
    rw [ih (10 * a + digitVal c), ih (10 * 0 + digitVal c)]
    ring

lemma charsToNat_cons (c : Char) (l : List Char) :
    charsToNat (c :: l) = digitVal c * 10 ^ l.length + charsToNat l := by
  have := charsToNat_foldl l (digitVal c)
  simpa [charsToNat] using this

lemma charsToNat_append (l₁ l₂ : List Char) :
    charsToNat (l₁ ++ l₂) = charsToNat l₁ * 10 ^ l₂.length + charsToNat l₂ := by
  unfold charsToNat
  rw [List.foldl_append]
  exact charsToNat_foldl l₂ _

lemma charsToNat_decDigits (n : ℕ) : charsToNat (decDigits n) = n := by
  induction n using Nat.strong_induction_on with
  | _ n ih =>
    by_cases h : n < 10
    · rw [decDigits_of_lt h, charsToNat_cons, charsToNat_nil]
      simp [digitVal_digitChar h]
    · push_neg at h
      rw [decDigits_of_ge h, charsToNat_append,
        ih (n / 10) (Nat.div_lt_self (by omega) (by omega))]
      rw [charsToNat_cons, charsToNat_nil]
      simp [digitVal_digitChar (Nat.mod_lt n (by omega))]
      omega

lemma decDigits_ne_nil (n : ℕ) : decDigits n ≠ [] := by
  by_cases h : n < 10
  · rw [decDigits_of_lt h]; simp
  · rw [decDigits_of_ge (by omega)]; simp

lemma decDigits_all_isDigit (n : ℕ) : ∀ c ∈ decDigits n, c.isDigit = true := by
  induction n using Nat.strong_induction_on with
  | _ n ih =>
    by_cases h : n < 10
    · rw [decDigits_of_lt h]
      intro c hc
      simp at hc
      subst hc
      exact isDigit_digitChar h
    · push_neg at h
      rw [decDigits_of_ge h]
      intro c hc
      rcases List.mem_append.mp hc with h1 | h1
      · exact ih (n / 10) (Nat.div_lt_self (by omega) (by omega)) c h1
      · simp at h1
        subst h1
        exact isDigit_digitChar (Nat.mod_lt n (by omega))

lemma decDigits_length_le {n : ℕ} {p : ℕ} (h : n < 10 ^ p) (hp : 0 < p) :
    (decDigits n).length ≤ p := by
  induction p generalizing n with
  | zero => omega
  | succ p ih =>
    by_cases h10 : n < 10
    · rw [decDigits_of_lt h10]; simp
    · push_neg at h10
      rw [decDigits_of_ge h10]
      have hp0 : 0 < p := by
        by_contra hc
        push_neg at hc
        interval_cases p
        simp at h
        omega
      have hd : n / 10 < 10 ^ p := by
        rw [Nat.div_lt_iff_lt_mul (by omega)]
        calc n < 10 ^ (p + 1) := h
        _ = 10 ^ p * 10 := by ring
      have := ih hd hp0
      simp [List.length_append]
      omega

lemma decDigits_pow_add_length {p n : ℕ} (h : n < 10 ^ p) :
    (decDigits (10 ^ p + n)).length = p + 1 := by
  induction p generalizing n with
  | zero =>
    have : n = 0 := by omega
    subst this
    rw [decDigits_of_lt (by norm_num)]
    rfl
  | succ p ih =>
    have hge : 10 ≤ 10 ^ (p + 1) + n := by
      have : (10 : ℕ) ≤ 10 ^ (p + 1) := by
        calc (10 : ℕ) = 10 ^ 1 := by norm_num
        _ ≤ 10 ^ (p + 1) := Nat.pow_le_pow_right (by omega) (by omega)
      omega
    rw [decDigits_of_ge hge]
    have hdiv : (10 ^ (p + 1) + n) / 10 = 10 ^ p + n / 10 := by
      have : 10 ^ (p + 1) + n = 10 * 10 ^ p + n := by ring_nf
      rw [this, Nat.mul_add_div (by omega)]
    have hn : n / 10 < 10 ^ p := by
      rw [Nat.div_lt_iff_lt_mul (by omega)]
      calc n < 10 ^ (p + 1) := h
      _ = 10 ^ p * 10 := by ring
    rw [hdiv]
    simp [List.length_append, ih hn]

lemma decDigits_pow_add_head {p n : ℕ} (h : n < 10 ^ p) :
    ∃ t, decDigits (10 ^ p + n) = '1' :: t := by
  induction p generalizing n with
  | zero =>
    have : n = 0 := by omega
    subst this
    exact ⟨[], by rw [decDigits_of_lt (by norm_num)]; rfl⟩
  | succ p ih =>
    have hge : 10 ≤ 10 ^ (p + 1) + n := by
      have : (10 : ℕ) ≤ 10 ^ (p + 1) := by
        calc (10 : ℕ) = 10 ^ 1 := by norm_num
        _ ≤ 10 ^ (p + 1) := Nat.pow_le_pow_right (by omega) (by omega)
      omega
    rw [decDigits_of_ge hge]
    have hdiv : (10 ^ (p + 1) + n) / 10 = 10 ^ p + n / 10 := by
      have : 10 ^ (p + 1) + n = 10 * 10 ^ p + n := by ring_nf
      rw [this, Nat.mul_add_div (by omega)]
    have hn : n / 10 < 10 ^ p := by
      rw [Nat.div_lt_iff_lt_mul (by omega)]
      calc n < 10 ^ (p + 1) := h
      _ = 10 ^ p * 10 := by ring
    obtain ⟨t, ht⟩ := ih hn
    rw [hdiv, ht]
    exact ⟨t ++ [Nat.digitChar ((10 ^ (p + 1) + n) % 10)], rfl⟩

lemma charsToNat_replicate_zero (k : ℕ) (l : List Char) :
    charsToNat (List.replicate k '0' ++ l) = charsToNat l := by
  induction k with
  | zero => simp
  | succ k ih =>
    rw [List.replicate_succ, List.cons_append, charsToNat_cons]
    simpa [digitVal] using ih

lemma padStart_data (s : String) (n : ℕ) (c : Char) :
    (padStart s n c).data = List.replicate (n - s.data.length) c ++ s.data := rfl

lemma jsNatRepr_data (n : ℕ) : (jsNatRepr n).data = decDigits n := rfl

lemma jsNatRepr_ne_empty (n : ℕ) : jsNatRepr n ≠ "" := by
  intro h
  have : (jsNatRepr n).data = [] := by rw [h]
  exact decDigits_ne_nil n this

/-- The two-digit zero-padded rendering `String(k).padStart(2, '0')` of a
value below 100: length two, decimal digits only, and it reads back as
`k`. -/
lemma pad2_spec {k : ℕ} (h : k < 100) :
    (padStart (jsNatRepr k) 2 '0').length = 2 ∧
    (∀ c ∈ (padStart (jsNatRepr k) 2 '0').data, c.isDigit = true) ∧
    charsToNat (padStart (jsNatRepr k) 2 '0').data = k := by
  have hlen : (decDigits k).length ≤ 2 := decDigits_length_le (by omega) (by omega)
  have hne : (decDigits k).length ≠ 0 := by
    simpa using decDigits_ne_nil k
  refine ⟨?_, ?_, ?_⟩
  · show (padStart (jsNatRepr k) 2 '0').data.length = 2
    rw [padStart_data, jsNatRepr_data, List.length_append, List.length_replicate]
    omega
  · rw [padStart_data, jsNatRepr_data]
    intro c hc
    rcases List.mem_append.mp hc with h1 | h1
    · rw [List.eq_of_mem_replicate h1]; decide
    · exact decDigits_all_isDigit k c h1
  · rw [padStart_data, jsNatRepr_data, charsToNat_replicate_zero,
      charsToNat_decDigits]

/-- `Math.round(ms / 1000)` on exact rationals equals the all-integer
computation `(ms + 500) / 1000` with floor division. -/
lemma jsRound_ms_eq (m : ℤ) : jsRound ((m : ℚ) / 1000) = jsRoundMs m := by
  unfold jsRound jsRoundMs
  have h : (m : ℚ) / 1000 + 1 / 2 = ((m + 500 : ℤ) : ℚ) / ((1000 : ℕ) : ℚ) := by
    push_cast
    ring
  rw [h, Rat.floor_intCast_div_natCast]
  norm_num

/-- C10. `strftime`'s 12-hour conversion maps every hour `h` in 0..23 to
`(h + 11) % 12 + 1`: hour 0 and hour 12 render as 12, hours 13..23 as
1..11, always within 1..12; `%p` is `"AM"` exactly when `h < 12`; and
`zeroPad n p` is the `p`-digit zero-padded decimal representation of `n`
(exactly `p` characters, all decimal digits, reading back as `n`) for
every `n < 10 ^ p`. -/
theorem C10_strftime_numeric :
    (∀ h : ℕ, h < 24 → 1 ≤ hour12 h ∧ hour12 h ≤ 12) ∧
    hour12 0 = 12 ∧ hour12 12 = 12 ∧
    (∀ h : ℕ, 13 ≤ h → h ≤ 23 → hour12 h = h - 12) ∧
    (∀ h : ℕ, ampm h = "AM" ↔ h < 12) ∧
    (∀ p n : ℕ, n < 10 ^ p →
      (zeroPad n p).length = p ∧
      (∀ c ∈ (zeroPad n p).data, c.isDigit = true) ∧
      charsToNat (zeroPad n p).data = n) := by
  refine ⟨?_, rfl, rfl, ?_, ?_, ?_⟩
  · intro h hh
    interval_cases h <;> constructor <;> decide
  · intro h h13 h23
    interval_cases h <;> decide
  · intro h
    unfold ampm
    split_ifs with hc
    · simpa using hc
    · constructor
      · intro habs
        exact absurd habs (by decide)
      · intro hlt
        exact absurd hlt hc
  · intro p n hn
    obtain ⟨t, ht⟩ := decDigits_pow_add_head hn
    have hlen : (decDigits (10 ^ p + n)).length = p + 1 := decDigits_pow_add_length hn
    have htlen : t.length = p := by
      rw [ht] at hlen
      simpa using hlen
    have hdata : (zeroPad n p).data = t := by
      show ((decDigits (10 ^ p + n)).drop 1).asString.data = t
      rw [ht]
      rfl
    have hval : charsToNat t = n := by
      have h1 : charsToNat (decDigits (10 ^ p + n)) = 10 ^ p + n :=
        charsToNat_decDigits _
      rw [ht, charsToNat_cons, htlen] at h1
      have : digitVal '1' = 1 := by decide
      rw [this] at h1
      omega
    refine ⟨?_, ?_, ?_⟩
    · show (zeroPad n p).data.length = p
      rw [hdata, htlen]
    · intro c hc
      rw [hdata] at hc
      exact decDigits_all_isDigit (10 ^ p + n) c (by rw [ht]; exact List.mem_cons_of_mem _ hc)
    · rw [hdata, hval]

/-- Witness for C10 at `p = 2`, `n = 7`. -/
theorem C10_strftime_numeric_witness :
    (zeroPad 7 2).length = 2 ∧
    (∀ c ∈ (zeroPad 7 2).data, c.isDigit = true) ∧
    charsToNat (zeroPad 7 2).data = 7 :=
  C10_strftime_numeric.2.2.2.2.2 2 7 (by norm_num)

/-- C2. One authoritative reference clock: with `server_time` enabled,
`Clock.display_time` formats the instant `local_now + server_time_delta`
and `CountdownTimer.display_countdown` measures the distance to expiry as
`(expires - (local_now + server_time_delta)) / 1000`; with it disabled,
both use the unmodified local clock.  `set_time_delta` is what stores the
server-reported delta they share. -/
theorem C2_reference_clock (local_now delta expires : ℤ) (fmt : Option String)
    (v : VAData) (d : ℤ) :
    display_time true fmt local_now delta = (fmt.getD "%H:%M", local_now + delta) ∧
    display_time false fmt local_now delta = (fmt.getD "%H:%M", local_now) ∧
    (display_countdown expires true local_now delta).distance =
      ((expires : ℚ) - ((local_now + delta : ℤ) : ℚ)) / 1000 ∧
    (display_countdown expires false local_now delta).distance =
      ((expires : ℚ) - ((local_now : ℤ) : ℚ)) / 1000 ∧
    set_time_delta v true d = { v with server_time_delta := d } ∧
    set_time_delta v false d = v := by
  refine ⟨rfl, rfl, ?_, ?_, rfl, rfl⟩
  · simp [display_countdown, refInstant]
  · simp [display_countdown, refInstant]

/-- C9. With the `expires` attribute equal to the string `"0"`,
`start_timer` writes `no_timer_text` and registers no repeating interval;
the half-second interval exists exactly when the loose comparison
`expires != 0` holds, so the string `"0"` selects the no-timer branch. -/
theorem C9_zero_expires_no_timer (nt : String) :
    start_timer (some "0") nt = ⟨some nt, none⟩ ∧
    (∀ s nt', (start_timer s nt').intervalMs = some 500 ↔ expiresNeZero s = true) ∧
    (∀ s nt', (start_timer s nt').text = some nt' ↔ expiresNeZero s = false) := by
  have h0 : expiresNeZero (some "0") = false := by
    simp [expiresNeZero, jsToNumber, isJsSpace, charsToNat, digitVal]
  refine ⟨?_, ?_, ?_⟩
  · rw [start_timer, h0]
    simp
  · intro s nt'
    unfold start_timer
    cases h : expiresNeZero s <;> simp [h]
  · intro s nt'
    unfold start_timer
    cases h : expiresNeZero s <;> simp [h]

/-- Decomposition of the rendered countdown text into sign, day part and
the three zero-padded fields, with the numeric values expressed through
`distAbsSec`. -/
lemma display_countdown_text_eq (expires local_now delta : ℤ) (st : Bool) :
    (display_countdown expires st local_now delta).text =
      (if jsRoundMs (distMs expires st local_now delta) < 0 then "-" else "") ++
      (if distAbsSec expires st local_now delta / 86400 ≠ 0 then
        jsNatRepr (distAbsSec expires st local_now delta / 86400) ++ "d "
       else "") ++
      padStart (jsNatRepr (distAbsSec expires st local_now delta % 86400 / 3600)) 2 '0' ++ ":" ++
      padStart (jsNatRepr (distAbsSec expires st local_now delta % 3600 / 60)) 2 '0' ++ ":" ++
      padStart (jsNatRepr (distAbsSec expires st local_now delta % 60)) 2 '0' := by
  simp only [display_countdown, distAbsSec, distMs]
  norm_num
  split_ifs with h1 h2 <;>
    (apply String.ext; simp [String.data_append, List.append_assoc])

/-- The returned `distance` is the millisecond distance divided by 1000. -/
lemma display_countdown_distance_eq (expires local_now delta : ℤ) (st : Bool) :
    (display_countdown expires st local_now delta).distance =
      ((distMs expires st local_now delta : ℤ) : ℚ) / 1000 := by
  simp only [display_countdown, distMs]
  push_cast
  ring

/-- `Math.round` of the returned distance equals the integer computation. -/
lemma jsRound_distance_eq (expires local_now delta : ℤ) (st : Bool) :
    jsRound (display_countdown expires st local_now delta).distance =
      jsRoundMs (distMs expires st local_now delta) := by
  rw [display_countdown_distance_eq, jsRound_ms_eq]

/-- C1. The displayed day/hour/minute/second breakdown is
`d / 86400`, `(d % 86400) / 3600`, `(d % 3600) / 60` and `d % 60` (floor
division on naturals), where `d` is the absolute value of the rounded
whole-second distance between expiry and the reference now; `d` itself is
obtained from the integer timestamp subtraction by floor division
(`jsRoundMs`), never by re-parsing a formatted string. -/
theorem C1_countdown_breakdown (expires local_now delta : ℤ) (st : Bool) :
    jsRoundMs (distMs expires st local_now delta) =
      jsRound (((expires : ℚ) - ((refInstant st local_now delta : ℤ) : ℚ)) / 1000) ∧
    ∃ sign, (sign = "" ∨ sign = "-") ∧
      (display_countdown expires st local_now delta).text =
        sign ++
        (if distAbsSec expires st local_now delta / 86400 ≠ 0 then
          jsNatRepr (distAbsSec expires st local_now delta / 86400) ++ "d "
         else "") ++
        padStart (jsNatRepr (distAbsSec expires st local_now delta % 86400 / 3600)) 2 '0' ++ ":" ++
        padStart (jsNatRepr (distAbsSec expires st local_now delta % 3600 / 60)) 2 '0' ++ ":" ++
        padStart (jsNatRepr (distAbsSec expires st local_now delta % 60)) 2 '0' := by
  constructor
  · rw [← jsRound_ms_eq]
    congr 1
    unfold distMs
    push_cast
    ring
  · refine ⟨if jsRoundMs (distMs expires st local_now delta) < 0 then "-" else "",
      ?_, ?_⟩
    · split_ifs <;> simp
    · exact display_countdown_text_eq expires local_now delta st

/-- C8. The rendered hours/minutes/seconds are two-digit zero-padded
decimal strings with values in [0,24), [0,60) and [0,60); the days field
(suffixed `"d "`) is prepended exactly when nonzero; the text is prefixed
with `"-"` exactly when the rounded signed distance is negative, so a
distance strictly between -0.5 and 0 seconds carries no sign. -/
theorem C8_countdown_fields (expires local_now delta : ℤ) (st : Bool) :
    ∃ sign dayPart H M S : String,
      (display_countdown expires st local_now delta).text =
        sign ++ dayPart ++ H ++ ":" ++ M ++ ":" ++ S ∧
      H.length = 2 ∧ (∀ c ∈ H.data, c.isDigit = true) ∧ charsToNat H.data < 24 ∧
      M.length = 2 ∧ (∀ c ∈ M.data, c.isDigit = true) ∧ charsToNat M.data < 60 ∧
      S.length = 2 ∧ (∀ c ∈ S.data, c.isDigit = true) ∧ charsToNat S.data < 60 ∧
      (dayPart = "" ↔ distAbsSec expires st local_now delta / 86400 = 0) ∧
      (distAbsSec expires st local_now delta / 86400 ≠ 0 →
        dayPart = jsNatRepr (distAbsSec expires st local_now delta / 86400) ++ "d ") ∧
      (sign = "" ∨ sign = "-") ∧
      (sign = "-" ↔ jsRound (display_countdown expires st local_now delta).distance < 0) ∧
      (-(1 / 2 : ℚ) < (display_countdown expires st local_now delta).distance →
        (display_countdown expires st local_now delta).distance < 0 → sign = "") := by
  set d := distAbsSec expires st local_now delta with hd
  have h24 : d % 86400 / 3600 < 24 := by
    have h1 : d % 86400 < 86400 := Nat.mod_lt _ (by norm_num)
    omega
  have hm60 : d % 3600 / 60 < 60 := by
    have h1 : d % 3600 < 3600 := Nat.mod_lt _ (by norm_num)
    omega
  have hs60 : d % 60 < 60 := Nat.mod_lt _ (by norm_num)
  obtain ⟨hH1, hH2, hH3⟩ := pad2_spec (k := d % 86400 / 3600) (by omega)
  obtain ⟨hM1, hM2, hM3⟩ := pad2_spec (k := d % 3600 / 60) (by omega)
  obtain ⟨hS1, hS2, hS3⟩ := pad2_spec (k := d % 60) (by omega)
  refine ⟨if jsRoundMs (distMs expires st local_now delta) < 0 then "-" else "",
    if d / 86400 ≠ 0 then jsNatRepr (d / 86400) ++ "d " else "",
    padStart (jsNatRepr (d % 86400 / 3600)) 2 '0',
    padStart (jsNatRepr (d % 3600 / 60)) 2 '0',
    padStart (jsNatRepr (d % 60)) 2 '0',
    ?_, hH1, hH2, by omega, hM1, hM2, by omega, hS1, hS2, by omega, ?_, ?_, ?_, ?_, ?_⟩
  · rw [display_countdown_text_eq expires local_now delta st, hd]
  · constructor
    · intro he
      by_contra hne
      rw [if_pos hne] at he
      have : (jsNatRepr (d / 86400) ++ "d ").data = [] := by rw [he]
      rw [String.data_append, jsNatRepr_data] at this
      exact decDigits_ne_nil _ (by simpa using List.append_eq_nil.mp this |>.1)
    · intro hz
      rw [if_neg (by omega)]
  · intro hne
    rw [if_pos hne]
  · split_ifs <;> simp
  · rw [jsRound_distance_eq]
    split_ifs with hneg
    · simp [hneg]
    · simpa using hneg
  · intro hlo _hhi
    rw [display_countdown_distance_eq expires local_now delta st] at hlo
    have h1 : (-(1 / 2 : ℚ)) * 1000 < ((distMs expires st local_now delta : ℤ) : ℚ) :=
      (lt_div_iff₀ (by norm_num : (0 : ℚ) < 1000)).mp hlo
    have h2 : (-500 : ℤ) < distMs expires st local_now delta := by
      have : ((-500 : ℤ) : ℚ) < ((distMs expires st local_now delta : ℤ) : ℚ) := by
        push_cast
        linarith
      exact_mod_cast this
    have h0 : 0 ≤ jsRoundMs (distMs expires st local_now delta) := by
      unfold jsRoundMs
      omega
    rw [if_neg (not_lt.mpr h0)]

/-! ## Lemmas: the timer engine -/

lemma fireRecord_fst_id (now : ℤ) (r : TimerRecord) :
    ((fireRecord now r).1).id = r.id := by
  unfold fireRecord
  split_ifs <;> rfl

lemma fireRecord_fst_fields (now : ℤ) (r : TimerRecord) :
    ((fireRecord now r).1).id = r.id ∧
    ((fireRecord now r).1).expires = r.expires ∧
    ((fireRecord now r).1).pre_expire_warning = r.pre_expire_warning ∧
    ((fireRecord now r).1).device_id = r.device_id ∧
    ((fireRecord now r).1).original_expiry = r.original_expiry := by
  unfold fireRecord
  split_ifs <;> exact ⟨rfl, rfl, rfl, rfl, rfl⟩

lemma fireRecord_snd_ids (now : ℤ) (r : TimerRecord) :
    ∀ e ∈ (fireRecord now r).2, e.timerId = r.id := by
  unfold fireRecord
  split_ifs <;> intro e he <;> simp at he <;> simp [he]

lemma fireRecord_terminal (now : ℤ) (r : TimerRecord)
    (h : r.status = .expired ∨ r.status = .cancelled) :
    fireRecord now r = (r, []) := by
  rcases h with h | h <;> simp [fireRecord, h]

lemma wakeEventsFor_append (T : ℕ) (l₁ l₂ : List Event) :
    wakeEventsFor T (l₁ ++ l₂) = wakeEventsFor T l₁ ++ wakeEventsFor T l₂ := by
  simp [wakeEventsFor]

lemma wakeEventsFor_nil_of_ids (T : ℕ) (l : List Event)
    (h : ∀ e ∈ l, e.timerId ≠ T) : wakeEventsFor T l = [] := by
  apply List.filter_eq_nil_iff.mpr
  intro e he
  simp [h e he]

lemma wakeEventsFor_nil_of_actions (T : ℕ) (l : List Event)
    (h : ∀ e ∈ l, e.action ≠ .warning ∧ e.action ≠ .expired) :
    wakeEventsFor T l = [] := by
  apply List.filter_eq_nil_iff.mpr
  intro e he
  obtain ⟨h1, h2⟩ := h e he
  simp [h1, h2]

lemma wake_flatten_nil (T : ℕ) (now : ℤ) (l : List TimerRecord)
    (h : ∀ q ∈ l, q.id ≠ T) :
    wakeEventsFor T ((l.map (fun q => (fireRecord now q).2)).flatten) = [] := by
  apply wakeEventsFor_nil_of_ids
  intro e he
  obtain ⟨evs, hevs, hme⟩ := List.mem_flatten.mp he
  obtain ⟨q, hq, rfl⟩ := List.mem_map.mp hevs
  rw [fireRecord_snd_ids now q e hme]
  exact h q hq

/-- C3. A timer created from a relative duration `D` satisfies
`expires = created_at + D`, `original_expiry = expires` and
`status = running`, and it is appended to the store. -/
theorem C3_set_timer_relative (s : EngineState) (dev : String) (c : TimerClass)
    (name : Option String) (extra : List (String × String)) (w D : ℕ) :
    ∃ r : TimerRecord,
      (set_timer s dev c (some (.interval D)) name extra w).1 = .ok (r.id, r) ∧
      r.id = s.nextId ∧
      r.expires = r.created_at + (D : ℤ) ∧
      r.original_expiry = r.expires ∧
      r.status = .running ∧
      r.created_at = s.now ∧
      r.device_id = dev ∧
      r.extra_info = extra ∧
      (set_timer s dev c (some (.interval D)) name extra w).2.store = s.store ++ [r] := by
  exact ⟨_, rfl, rfl, rfl, rfl, rfl, rfl, rfl, rfl, rfl⟩

/-- C4. Snoozing succeeds only from status `expired`: in any other status
the call fails with `InvalidStateError` and the whole state — the record
included — is untouched; on success the record becomes `running` with
`original_expiry` unchanged and `expires = snooze_time + duration`. -/
theorem C4_snooze_only_expired :
    (∀ (s : EngineState) (tid : ℕ) (dur : Option ℕ) (r : TimerRecord),
      s.store.find? (fun q => q.id == tid) = some r →
      r.status ≠ .expired →
      snooze_timer s tid dur = (.error .invalidState, s)) ∧
    (∀ (s : EngineState) (tid : ℕ) (d : ℕ) (r : TimerRecord),
      s.store.find? (fun q => q.id == tid) = some r →
      r.status = .expired →
      ∃ r' s', snooze_timer s tid (some d) = (.ok r', s') ∧
        r'.status = .running ∧
        r'.original_expiry = r.original_expiry ∧
        r'.expires = s.now + (d : ℤ) ∧
        r'.updated_at = s.now ∧
        s'.now = s.now ∧
        s'.store = s.store.map (fun q => if q.id == tid then r' else q)) := by
  constructor
  · intro s tid dur r hf hst
    simp only [snooze_timer, hf]
    rw [if_neg hst]
  · intro s tid d r hf hst
    simp only [snooze_timer, hf]
    rw [if_pos hst]
    exact ⟨_, _, rfl, rfl, rfl, rfl, rfl, rfl, rfl⟩

/-- Witness for C4: on `sampleState`, snoozing the running record fails
with `InvalidStateError` leaving the state untouched, and snoozing the
expired record re-arms it. -/
theorem C4_snooze_only_expired_witness :
    snooze_timer sampleState 1 (some 600) = (.error .invalidState, sampleState) ∧
    (∃ r' s', snooze_timer sampleState 0 (some 600) = (.ok r', s') ∧
      r'.status = .running ∧
      r'.original_expiry = sampleExpired.original_expiry ∧
      r'.expires = sampleState.now + (600 : ℤ) ∧
      r'.updated_at = sampleState.now ∧
      s'.now = sampleState.now ∧
      s'.store = sampleState.store.map (fun q => if q.id == 0 then r' else q)) :=
  ⟨C4_snooze_only_expired.1 sampleState 1 (some 600) sampleRunning (by decide) (by decide),
   C4_snooze_only_expired.2 sampleState 0 600 sampleExpired (by decide) (by decide)⟩

/-- C5. With a valid selection, `cancel_timer` returns a normal (non-error)
boolean that is `true` iff at least one record matched the selection; a
matchless selection yields `result = false` and an unchanged state.  The
selection honors exactly one mode with precedence
`remove_all` > `timer_id` > `device_id`. -/
theorem C5_cancel_result (s : EngineState) (tid : Option ℕ) (dev : Option String)
    (all : Bool) (hsel : all = true ∨ tid ≠ none ∨ dev ≠ none) :
    ∃ b s', cancel_timer s tid dev all = (.ok b, s') ∧
      s'.store = s.store.filter (fun r => ¬ cancelSelects tid dev all r) ∧
      (b = true ↔ ∃ r ∈ s.store, cancelSelects tid dev all r = true) ∧
      (b = false → s' = s) ∧
      (∀ r, all = true → cancelSelects tid dev all r = true) ∧
      (∀ r t, all = false → tid = some t → cancelSelects tid dev all r = (r.id == t)) ∧
      (∀ r dstr, all = false → tid = none → dev = some dstr →
        cancelSelects tid dev all r = (r.device_id == dstr)) := by
  have hcond : ¬(all = false ∧ tid = none ∧ dev = none) := by
    rcases hsel with h | h | h <;> simp [h]
  refine ⟨decide (s.store.filter (cancelSelects tid dev all) ≠ []),
    { s with
      store := s.store.filter (fun r => ¬ cancelSelects tid dev all r)
      events := s.events ++ (s.store.filter (cancelSelects tid dev all)).map
        (fun r => (⟨.cancelled, r.id, s.now⟩ : Event)) },
    ?_, rfl, ?_, ?_, ?_, ?_, ?_⟩
  · unfold cancel_timer
    rw [if_neg hcond]
  · simp [List.filter_eq_nil_iff]
  · intro hb
    have hnil : s.store.filter (cancelSelects tid dev all) = [] := by
      by_contra hne
      simp [hne] at hb
    have hall : ∀ r ∈ s.store, ¬ cancelSelects tid dev all r = true :=
      List.filter_eq_nil_iff.mp hnil
    have hstore : s.store.filter (fun r => ¬ cancelSelects tid dev all r) = s.store := by
      apply List.filter_eq_self.mpr
      intro r hr
      simpa using hall r hr
    have hmap : ((s.store.filter (cancelSelects tid dev all)).map
        (fun r => (⟨.cancelled, r.id, s.now⟩ : Event))) = [] := by
      rw [hnil]
      rfl
    cases s
    simp_all
  · intro r hall
    simp [cancelSelects, hall]
  · intro r t hall ht
    simp [cancelSelects, hall, ht]
  · intro r dstr hall ht hdev
    simp [cancelSelects, hall, ht, hdev]

/-- Witness for C5: cancelling by the id of the expired sample record
removes it (result `true`); the hypothesis is the `timer_id` selection
mode. -/
theorem C5_cancel_result_witness :
    ∃ b s', cancel_timer sampleState (some 0) none false = (.ok b, s') ∧
      s'.store = sampleState.store.filter
        (fun r => ¬ cancelSelects (some 0) none false r) ∧
      (b = true ↔ ∃ r ∈ sampleState.store, cancelSelects (some 0) none false r = true) ∧
      (b = false → s' = sampleState) ∧
      (∀ r, false = true → cancelSelects (some 0) none false r = true) ∧
      (∀ r t, false = false → some 0 = some t →
        cancelSelects (some 0) none false r = (r.id == t)) ∧
      (∀ r dstr, false = false → some 0 = none → none = some dstr →
        cancelSelects (some 0) none false r = (r.device_id == dstr)) :=
  C5_cancel_result sampleState (some 0) none false (by simp)

/-- One interleaved action can neither re-introduce an absent id `T` into
the store nor emit a wake event for it. -/
lemma step_absent (T : ℕ) (s : EngineState) (op : Op)
    (h1 : ∀ r ∈ s.store, r.id < s.nextId) (h2 : T < s.nextId)
    (h3 : ∀ r ∈ s.store, r.id ≠ T) :
    (∀ r ∈ (step s op).store, r.id < (step s op).nextId) ∧
    T < (step s op).nextId ∧
    (∀ r ∈ (step s op).store, r.id ≠ T) ∧
    wakeEventsFor T (step s op).events = wakeEventsFor T s.events := by
  cases op with
  | tick =>
    refine ⟨?_, h2, ?_, ?_⟩
    · intro r hr
      simp only [step, tick, List.map_map] at hr ⊢
      obtain ⟨q, hq, rfl⟩ := List.mem_map.mp hr
      simpa [fireRecord_fst_id] using h1 q hq
    · intro r hr
      simp only [step, tick, List.map_map] at hr
      obtain ⟨q, hq, rfl⟩ := List.mem_map.mp hr
      simpa [fireRecord_fst_id] using h3 q hq
    · simp only [step, tick]
      rw [wakeEventsFor_append]
      have h0 : ∀ e ∈ ((s.store.map (fireRecord (s.now + 1))).map Prod.snd).flatten,
          e.timerId ≠ T := by
        intro e he
        obtain ⟨evs, hevs, hme⟩ := List.mem_flatten.mp he
        obtain ⟨pr, hpr, rfl⟩ := List.mem_map.mp hevs
        obtain ⟨q, hq, rfl⟩ := List.mem_map.mp hpr
        rw [fireRecord_snd_ids _ q e hme]
        exact h3 q hq
      rw [wakeEventsFor_nil_of_ids _ _ h0, List.append_nil]
  | setTimer d c res n e w =>
    cases res with
    | none => exact ⟨h1, h2, h3, rfl⟩
    | some rt =>
      obtain ⟨newr, hnewid, hstep⟩ : ∃ newr : TimerRecord, newr.id = s.nextId ∧
          step s (.setTimer d c (some rt) n e w) =
          { s with
            store := s.store ++ [newr]
            nextId := s.nextId + 1
            events := s.events ++ [⟨.started, s.nextId, s.now⟩] } := by
        cases rt <;> exact ⟨_, rfl, rfl⟩
      rw [hstep]
      dsimp only
      refine ⟨?_, by omega, ?_, ?_⟩
      · intro r hr
        rcases List.mem_append.mp hr with h | h
        · have := h1 r h
          omega
        · simp at h
          subst h
          rw [hnewid]
          omega
      · intro r hr
        rcases List.mem_append.mp hr with h | h
        · exact h3 r h
        · simp at h
          subst h
          rw [hnewid]
          omega
      · rw [wakeEventsFor_append]
        have he : wakeEventsFor T [(⟨.started, s.nextId, s.now⟩ : Event)] = [] := by
          apply wakeEventsFor_nil_of_actions
          intro e' he'
          simp at he'
          subst he'
          exact ⟨by simp, by simp⟩
        rw [he, List.append_nil]
  | cancel tid dsel all =>
    by_cases hc : all = false ∧ tid = none ∧ dsel = none
    · have heq : step s (.cancel tid dsel all) = s := by
        simp only [step, cancel_timer, if_pos hc]
      rw [heq]
      exact ⟨h1, h2, h3, rfl⟩
    · have hstep : step s (.cancel tid dsel all) =
        { s with
          store := s.store.filter (fun r => ¬ cancelSelects tid dsel all r)
          events := s.events ++ (s.store.filter (cancelSelects tid dsel all)).map
            (fun r => (⟨.cancelled, r.id, s.now⟩ : Event)) } := by
        simp only [step, cancel_timer, if_neg hc]
      rw [hstep]
      refine ⟨?_, h2, ?_, ?_⟩
      · intro r hr
        exact h1 r (List.mem_of_mem_filter hr)
      · intro r hr
        exact h3 r (List.mem_of_mem_filter hr)
      · rw [wakeEventsFor_append]
        have he : wakeEventsFor T ((s.store.filter (cancelSelects tid dsel all)).map
            (fun r => (⟨.cancelled, r.id, s.now⟩ : Event))) = [] := by
          apply wakeEventsFor_nil_of_actions
          intro e' he'
          obtain ⟨q, _, rfl⟩ := List.mem_map.mp he'
          exact ⟨by simp, by simp⟩
        rw [he, List.append_nil]
  | snooze t dur =>
    cases hf : s.store.find? (fun q => q.id == t) with
    | none =>
      have heq : step s (.snooze t dur) = s := by
        simp only [step, snooze_timer, hf]
      rw [heq]
      exact ⟨h1, h2, h3, rfl⟩
    | some q =>
      have hq : q.id = t := by
        have := List.find?_some hf
        simpa using this
      have hqmem : q ∈ s.store := List.mem_of_find?_eq_some hf
      have htT : t ≠ T := hq ▸ h3 q hqmem
      by_cases hst : q.status = .expired
      · cases dur with
        | none =>
          have heq : step s (.snooze t none) = s := by
            simp only [step, snooze_timer, hf]
            rw [if_pos hst]
          rw [heq]
          exact ⟨h1, h2, h3, rfl⟩
        | some d =>
          have hstep : step s (.snooze t (some d)) =
              { s with
                store := s.store.map (fun x => if x.id == t then
                  { q with
                    status := .running
                    expires := s.now + (d : ℤ)
                    updated_at := s.now
                    extra_info := q.extra_info ++ [("snooze_duration", Nat.repr d)] }
                  else x)
                events := s.events ++ [⟨.snoozed, t, s.now⟩] } := by
            simp only [step, snooze_timer, hf]
            rw [if_pos hst]
          rw [hstep]
          refine ⟨?_, h2, ?_, ?_⟩
          · intro r hr
            obtain ⟨x, hx, rfl⟩ := List.mem_map.mp hr
            by_cases hxt : x.id == t
            · rw [if_pos hxt]
              have hq1 := h1 q hqmem
              simpa [hq] using hq1
            · rw [if_neg hxt]
              exact h1 x hx
          · intro r hr
            obtain ⟨x, hx, rfl⟩ := List.mem_map.mp hr
            by_cases hxt : x.id == t
            · rw [if_pos hxt]
              simpa [hq] using h3 q hqmem
            · rw [if_neg hxt]
              exact h3 x hx
          · rw [wakeEventsFor_append]
            have he : wakeEventsFor T [(⟨.snoozed, t, s.now⟩ : Event)] = [] := by
              apply wakeEventsFor_nil_of_actions
              intro e' he'
              simp at he'
              subst he'
              exact ⟨by simp, by simp⟩
            rw [he, List.append_nil]
      · have heq : step s (.snooze t dur) = s := by
          simp only [step, snooze_timer, hf]
          rw [if_neg hst]
        rw [heq]
        exact ⟨h1, h2, h3, rfl⟩

/-- Absence of id `T` is preserved by any interleaving, and no wake event
for `T` is ever appended. -/
lemma runOps_absent (T : ℕ) (ops : List Op) :
    ∀ s : EngineState,
    (∀ r ∈ s.store, r.id < s.nextId) → T < s.nextId →
    (∀ r ∈ s.store, r.id ≠ T) →
    (∀ r ∈ (runOps s ops).store, r.id ≠ T) ∧
    wakeEventsFor T (runOps s ops).events = wakeEventsFor T s.events := by
  induction ops with
  | nil => exact fun s _ _ h3 => ⟨h3, rfl⟩
  | cons op rest ih =>
    intro s h1 h2 h3
    obtain ⟨g1, g2, g3, g4⟩ := step_absent T s op h1 h2 h3
    have : runOps s (op :: rest) = runOps (step s op) rest := rfl
    rw [this]
    obtain ⟨k1, k2⟩ := ih (step s op) g1 g2 g3
    exact ⟨k1, by rw [k2, g4]⟩

/-- C6. Terminal records have no live wake point: the scheduler step does
nothing for a record in status `expired` or `cancelled`; and once
`cancel_timer` removes a record, whatever interleaving of ticks and
service calls follows, its id never reappears in the store or in any
`get_timers` result, and no warning or expiry event is ever emitted for it
afterward. -/
theorem C6_cancelled_never_fires :
    (∀ (now : ℤ) (r : TimerRecord),
      r.status = .expired ∨ r.status = .cancelled → fireRecord now r = (r, [])) ∧
    (∀ (s : EngineState) (T : ℕ) (ops : List Op),
      (∀ r ∈ s.store, r.id < s.nextId) → T < s.nextId →
      (∀ r ∈ (runOps ((cancel_timer s (some T) none false).2) ops).store, r.id ≠ T) ∧
      (∀ tid dev ie r,
        r ∈ get_timers (runOps ((cancel_timer s (some T) none false).2) ops) tid dev ie →
        r.id ≠ T) ∧
      wakeEventsFor T (runOps ((cancel_timer s (some T) none false).2) ops).events =
        wakeEventsFor T ((cancel_timer s (some T) none false).2).events) := by
  constructor
  · intro now r h
    exact fireRecord_terminal now r h
  · intro s T ops h1 h2
    set s₁ := (cancel_timer s (some T) none false).2 with hs₁
    have hni : s₁.nextId = s.nextId := by
      simp only [hs₁, cancel_timer]
      rw [if_neg (by simp)]
    have hfilter : s₁.store = s.store.filter
        (fun r => ¬ cancelSelects (some T) none false r) := by
      simp only [hs₁, cancel_timer]
      rw [if_neg (by simp)]
    have hsub : ∀ r ∈ s₁.store, r ∈ s.store ∧ r.id ≠ T := by
      intro r hr
      rw [hfilter] at hr
      refine ⟨List.mem_of_mem_filter hr, ?_⟩
      have := List.of_mem_filter hr
      simpa [cancelSelects] using this
    have h1' : ∀ r ∈ s₁.store, r.id < s₁.nextId := fun r hr => by
      rw [hni]
      exact h1 r (hsub r hr).1
    have h2' : T < s₁.nextId := by
      rw [hni]
      exact h2
    have h3' : ∀ r ∈ s₁.store, r.id ≠ T := fun r hr => (hsub r hr).2
    obtain ⟨k1, k2⟩ := runOps_absent T ops s₁ h1' h2' h3'
    refine ⟨k1, ?_, k2⟩
    intro tid dev ie r hr
    simp only [get_timers] at hr
    exact k1 r (List.mem_of_mem_filter hr)

/-- Witness for C6: cancel the expired sample record (id 0) on
`sampleState`, then let the scheduler tick, create a fresh timer and tick
again; id 0 stays gone and gains no wake event. -/
theorem C6_cancelled_never_fires_witness :
    (∀ r ∈ (runOps ((cancel_timer sampleState (some 0) none false).2)
        [Op.tick, Op.setTimer "dev2" .timer (some (.interval 5)) none [] 10,
          Op.tick]).store, r.id ≠ 0) ∧
    (∀ tid dev ie r,
      r ∈ get_timers (runOps ((cancel_timer sampleState (some 0) none false).2)
        [Op.tick, Op.setTimer "dev2" .timer (some (.interval 5)) none [] 10,
          Op.tick]) tid dev ie →
      r.id ≠ 0) ∧
    wakeEventsFor 0 (runOps ((cancel_timer sampleState (some 0) none false).2)
        [Op.tick, Op.setTimer "dev2" .timer (some (.interval 5)) none [] 10,
          Op.tick]).events =
      wakeEventsFor 0 ((cancel_timer sampleState (some 0) none false).2).events :=
  C6_cancelled_never_fires.2 sampleState 0
    [Op.tick, Op.setTimer "dev2" .timer (some (.interval 5)) none [] 10, Op.tick]
    (by decide) (by decide)

/-- Wake events of the scheduler output of records whose ids differ from
`T` filter to nothing. -/
lemma wake_side_nil (T : ℕ) (now : ℤ) (l : List TimerRecord)
    (h : ∀ q ∈ l, q.id ≠ T) :
    wakeEventsFor T (((l.map (fireRecord now)).map Prod.snd).flatten) = [] := by
  apply wakeEventsFor_nil_of_ids
  intro e he
  obtain ⟨evs, hevs, hme⟩ := List.mem_flatten.mp he
  obtain ⟨pr, hpr, rfl⟩ := List.mem_map.mp hevs
  obtain ⟨q, hq, rfl⟩ := List.mem_map.mp hpr
  rw [fireRecord_snd_ids _ q e hme]
  exact h q hq

/-- In a tick over a store split around the watched record `r`, only `r`
can contribute wake events for `T`. -/
lemma wake_tick_events (T : ℕ) (now : ℤ) (l₁ l₂ : List TimerRecord)
    (r : TimerRecord) (h : ∀ q ∈ l₁ ++ l₂, q.id ≠ T) :
    wakeEventsFor T
        ((((l₁ ++ r :: l₂).map (fireRecord now)).map Prod.snd).flatten) =
      wakeEventsFor T (fireRecord now r).2 := by
  simp only [List.map_append, List.map_cons, List.flatten_append, List.flatten_cons]
  rw [wakeEventsFor_append, wakeEventsFor_append]
  rw [wake_side_nil T now l₁ (fun q hq => h q (List.mem_append_left _ hq))]
  have h₂ : wakeEventsFor T ((l₂.map (fireRecord now)).map Prod.snd).flatten = [] :=
    wake_side_nil T now l₂ (fun q hq => h q (List.mem_append_right _ hq))
  rw [h₂]
  simp

/-- Ids preserved pointwise by the scheduler step over the store. -/
lemma tick_map_ids (now : ℤ) (l : List TimerRecord) :
    ((l.map (fireRecord now)).map Prod.fst).map TimerRecord.id =
      l.map TimerRecord.id := by
  rw [List.map_map, List.map_map]
  apply List.map_congr_left
  intro q _
  simp [Function.comp, fireRecord_fst_id]

/-- One action that does not touch the watched timer preserves `C7Inv`. -/
lemma C7Inv_step (T : ℕ) (E : ℤ) (W : ℕ) (dev : String) (hW : 0 < W)
    (s : EngineState) (op : Op) (hInv : C7Inv T E W dev s)
    (hop : touches T dev op = false) : C7Inv T E W dev (step s op) := by
  obtain ⟨hnd, hlt, r, hr, hid, hE, hWr, hdev, hphase⟩ := hInv
  unfold C7Inv
  cases op with
  | tick =>
    obtain ⟨l₁, l₂, hsplit⟩ := List.append_of_mem hr
    have hids : ∀ q ∈ l₁ ++ l₂, q.id ≠ T := by
      rw [hsplit] at hnd
      rw [List.map_append, List.map_cons, List.nodup_append] at hnd
      obtain ⟨hA, hcons, hdisj⟩ := hnd
      rw [List.nodup_cons] at hcons
      obtain ⟨hrB, hB⟩ := hcons
      intro q hq hqT
      have hqr : q.id = r.id := by rw [hqT, hid]
      rcases List.mem_append.mp hq with h | h
      · exact hdisj (List.mem_map_of_mem _ h)
          (by rw [hqr]; exact List.mem_cons_self _ _)
      · exact hrB (by rw [← hqr]; exact List.mem_map_of_mem _ h)
    have hstep : step s .tick =
        { s with
          now := s.now + 1
          store := (s.store.map (fireRecord (s.now + 1))).map Prod.fst
          events := s.events ++
            ((s.store.map (fireRecord (s.now + 1))).map Prod.snd).flatten } := by
      simp only [step, tick, List.map_map]
    rw [hstep]
    dsimp only
    have hwake : wakeEventsFor T (s.events ++
        ((s.store.map (fireRecord (s.now + 1))).map Prod.snd).flatten) =
        wakeEventsFor T s.events ++ wakeEventsFor T (fireRecord (s.now + 1) r).2 := by
      rw [wakeEventsFor_append, hsplit, wake_tick_events T (s.now + 1) l₁ l₂ r hids]
    refine ⟨?_, ?_, ?_⟩
    · rw [tick_map_ids]
      exact hnd
    · intro x hx
      obtain ⟨pr, hpr, rfl⟩ := List.mem_map.mp hx
      obtain ⟨q, hq, rfl⟩ := List.mem_map.mp hpr
      rw [fireRecord_fst_id]
      exact hlt q hq
    · refine ⟨(fireRecord (s.now + 1) r).1,
        List.mem_map_of_mem _ (List.mem_map_of_mem _ hr), ?_⟩
      obtain ⟨f1, f2, f3, f4, _⟩ := fireRecord_fst_fields (s.now + 1) r
      rcases hphase with ⟨hst, hnow, hev⟩ | ⟨hst, hnow, hev⟩ | ⟨hst, hev⟩
      · rcases (by omega : s.now + 1 = E - (W : ℤ) ∨ s.now + 1 < E - (W : ℤ)) with
          heq | hlt2
        · have hc1 : r.status = .running ∧ 0 < r.pre_expire_warning ∧
              r.expires - (r.pre_expire_warning : ℤ) ≤ s.now + 1 ∧
              s.now + 1 < r.expires := by
            refine ⟨hst, ?_, ?_, ?_⟩
            · rw [hWr]; exact hW
            · rw [hE, hWr]; omega
            · rw [hE]; omega
          have hfire : fireRecord (s.now + 1) r =
              ({ r with status := .warningFired, updated_at := s.now + 1 },
                [⟨.warning, r.id, s.now + 1⟩]) := by
            rw [fireRecord, if_pos hc1]
          rw [hfire] at f1 f2 f3 f4 ⊢
          refine ⟨f1.symm ▸ hid, f2.symm ▸ hE, f3.symm ▸ hWr, f4.symm ▸ hdev, ?_⟩
          refine Or.inr (Or.inl ⟨rfl, by omega, ?_⟩)
          rw [hwake, hfire, hev]
          simp [wakeEventsFor, hid, heq]
        · have hc1 : ¬(r.status = .running ∧ 0 < r.pre_expire_warning ∧
              r.expires - (r.pre_expire_warning : ℤ) ≤ s.now + 1 ∧
              s.now + 1 < r.expires) := by
            rintro ⟨-, -, hle, -⟩
            rw [hE, hWr] at hle
            omega
          have hc2 : ¬((r.status = .running ∨ r.status = .warningFired) ∧
              r.expires ≤ s.now + 1) := by
            rintro ⟨-, hle⟩
            rw [hE] at hle
            omega
          have hfire : fireRecord (s.now + 1) r = (r, []) := by
            rw [fireRecord, if_neg hc1, if_neg hc2]
          rw [hfire] at f1 f2 f3 f4 ⊢
          refine ⟨hid, hE, hWr, hdev, Or.inl ⟨hst, by omega, ?_⟩⟩
          rw [hwake, hfire, hev]
          simp [wakeEventsFor]
      · have hc1 : ¬(r.status = .running ∧ 0 < r.pre_expire_warning ∧
            r.expires - (r.pre_expire_warning : ℤ) ≤ s.now + 1 ∧
            s.now + 1 < r.expires) := by
          rintro ⟨habs, -⟩
          rw [hst] at habs
          exact absurd habs (by simp)
        rcases (by omega : s.now + 1 = E ∨ s.now + 1 < E) with heq | hlt2
        · have hc2 : (r.status = .running ∨ r.status = .warningFired) ∧
              r.expires ≤ s.now + 1 := ⟨Or.inr hst, by rw [hE]; omega⟩
          have hfire : fireRecord (s.now + 1) r =
              ({ r with status := .expired, updated_at := s.now + 1 },
                [⟨.expired, r.id, s.now + 1⟩]) := by
            rw [fireRecord, if_neg hc1, if_pos hc2]
          rw [hfire] at f1 f2 f3 f4 ⊢
          refine ⟨f1.symm ▸ hid, f2.symm ▸ hE, f3.symm ▸ hWr, f4.symm ▸ hdev, ?_⟩
          refine Or.inr (Or.inr ⟨rfl, ?_⟩)
          rw [hwake, hfire, hev]
          simp [wakeEventsFor, hid, heq]
        · have hc2 : ¬((r.status = .running ∨ r.status = .warningFired) ∧
              r.expires ≤ s.now + 1) := by
            rintro ⟨-, hle⟩
            rw [hE] at hle
            omega
          have hfire : fireRecord (s.now + 1) r = (r, []) := by
            rw [fireRecord, if_neg hc1, if_neg hc2]
          rw [hfire] at f1 f2 f3 f4 ⊢
          refine ⟨hid, hE, hWr, hdev, Or.inr (Or.inl ⟨hst, by omega, ?_⟩)⟩
          rw [hwake, hfire, hev]
          simp [wakeEventsFor]
      · have hfire : fireRecord (s.now + 1) r = (r, []) :=
          fireRecord_terminal _ r (Or.inl hst)
        rw [hfire] at f1 f2 f3 f4 ⊢
        refine ⟨hid, hE, hWr, hdev, Or.inr (Or.inr ⟨hst, ?_⟩)⟩
        rw [hwake, hfire, hev]
        simp [wakeEventsFor]
  | setTimer d c res n e w =>
    cases res with
    | none => exact ⟨hnd, hlt, r, hr, hid, hE, hWr, hdev, hphase⟩
    | some rt =>
      obtain ⟨newr, hnewid, hstep⟩ : ∃ newr : TimerRecord, newr.id = s.nextId ∧
          step s (.setTimer d c (some rt) n e w) =
          { s with
            store := s.store ++ [newr]
            nextId := s.nextId + 1
            events := s.events ++ [⟨.started, s.nextId, s.now⟩] } := by
        cases rt <;> exact ⟨_, rfl, rfl⟩
      rw [hstep]
      dsimp only
      have hevents : wakeEventsFor T (s.events ++ [⟨.started, s.nextId, s.now⟩]) =
          wakeEventsFor T s.events := by
        rw [wakeEventsFor_append]
        have he : wakeEventsFor T [(⟨.started, s.nextId, s.now⟩ : Event)] = [] := by
          apply wakeEventsFor_nil_of_actions
          intro e' he'
          simp at he'
          subst he'
          exact ⟨by simp, by simp⟩
        rw [he, List.append_nil]
      refine ⟨?_, ?_, ?_⟩
      · simp only [List.map_append, List.map_cons, List.map_nil,
          List.nodup_append, List.nodup_cons]
        refine ⟨hnd, ⟨by simp, List.nodup_nil⟩, ?_⟩
        intro x hx
        obtain ⟨q, hq, rfl⟩ := List.mem_map.mp hx
        simp only [List.mem_cons, List.not_mem_nil, or_false]
        rw [hnewid]
        have := hlt q hq
        omega
      · intro x hx
        rcases List.mem_append.mp hx with h | h
        · have := hlt x h
          omega
        · simp at h
          subst h
          rw [hnewid]
          omega
      · refine ⟨r, List.mem_append_left _ hr, hid, hE, hWr, hdev, ?_⟩
        rcases hphase with ⟨h1, h2, h3⟩ | ⟨h1, h2, h3⟩ | ⟨h1, h3⟩
        · exact Or.inl ⟨h1, h2, by rw [hevents]; exact h3⟩
        · exact Or.inr (Or.inl ⟨h1, h2, by rw [hevents]; exact h3⟩)
        · exact Or.inr (Or.inr ⟨h1, by rw [hevents]; exact h3⟩)
  | cancel tid dsel all =>
    have hall : all = false := by
      cases all
      · rfl
      · simp [touches] at hop
    have htid : tid ≠ some T := by
      intro hteq
      subst hteq
      simp [touches] at hop
    have hdevsel : ¬(tid = none ∧ dsel = some dev) := by
      rintro ⟨ht1, ht2⟩
      subst ht1
      subst ht2
      simp [touches] at hop
    by_cases hc : all = false ∧ tid = none ∧ dsel = none
    · have heq : step s (.cancel tid dsel all) = s := by
        simp only [step, cancel_timer, if_pos hc]
      rw [heq]
      exact ⟨hnd, hlt, r, hr, hid, hE, hWr, hdev, hphase⟩
    · have hstep : step s (.cancel tid dsel all) =
        { s with
          store := s.store.filter (fun x => ¬ cancelSelects tid dsel all x)
          events := s.events ++ (s.store.filter (cancelSelects tid dsel all)).map
            (fun x => (⟨.cancelled, x.id, s.now⟩ : Event)) } := by
        simp only [step, cancel_timer, if_neg hc]
      rw [hstep]
      dsimp only
      have hsel : cancelSelects tid dsel all r = false := by
        unfold cancelSelects
        rw [hall]
        simp only [if_neg Bool.false_ne_true]
        cases tid with
        | some t =>
          have : t ≠ T := by
            intro hteq
            apply htid
            simp [hteq]
          simp [hid, Ne.symm this]
        | none =>
          cases dsel with
          | some dd =>
            have : dd ≠ dev := by
              intro hdeq
              exact hdevsel ⟨rfl, by rw [hdeq]⟩
            simp [hdev, Ne.symm this]
          | none => rfl
      have hevents : wakeEventsFor T (s.events ++
          (s.store.filter (cancelSelects tid dsel all)).map
            (fun x => (⟨.cancelled, x.id, s.now⟩ : Event))) =
          wakeEventsFor T s.events := by
        rw [wakeEventsFor_append]
        have he : wakeEventsFor T ((s.store.filter (cancelSelects tid dsel all)).map
            (fun x => (⟨.cancelled, x.id, s.now⟩ : Event))) = [] := by
          apply wakeEventsFor_nil_of_actions
          intro e' he'
          obtain ⟨q, _, rfl⟩ := List.mem_map.mp he'
          exact ⟨by simp, by simp⟩
        rw [he, List.append_nil]
      refine ⟨?_, ?_, ?_⟩
      · exact List.Nodup.sublist (List.Sublist.map _ (List.filter_sublist _)) hnd
      · intro x hx
        exact hlt x (List.mem_of_mem_filter hx)
      · refine ⟨r, List.mem_filter_of_mem hr (by simp [hsel]), hid, hE, hWr, hdev, ?_⟩
        rcases hphase with ⟨h1, h2, h3⟩ | ⟨h1, h2, h3⟩ | ⟨h1, h3⟩
        · exact Or.inl ⟨h1, h2, by rw [hevents]; exact h3⟩
        · exact Or.inr (Or.inl ⟨h1, h2, by rw [hevents]; exact h3⟩)
        · exact Or.inr (Or.inr ⟨h1, by rw [hevents]; exact h3⟩)
  | snooze t dur =>
    have htT : t ≠ T := by
      simp only [touches] at hop
      intro hteq
      rw [hteq] at hop
      simp at hop
    cases hf : s.store.find? (fun q => q.id == t) with
    | none =>
      have heq : step s (.snooze t dur) = s := by
        simp only [step, snooze_timer, hf]
      rw [heq]
      exact ⟨hnd, hlt, r, hr, hid, hE, hWr, hdev, hphase⟩
    | some q =>
      have hq : q.id = t := by
        have := List.find?_some hf
        simpa using this
      have hqmem : q ∈ s.store := List.mem_of_find?_eq_some hf
      by_cases hst : q.status = .expired
      · cases dur with
        | none =>
          have heq : step s (.snooze t none) = s := by
            simp only [step, snooze_timer, hf]
            rw [if_pos hst]
          rw [heq]
          exact ⟨hnd, hlt, r, hr, hid, hE, hWr, hdev, hphase⟩
        | some dd =>
          have hstep : step s (.snooze t (some dd)) =
              { s with
                store := s.store.map (fun x => if x.id == t then
                  { q with
                    status := .running
                    expires := s.now + (dd : ℤ)
                    updated_at := s.now
                    extra_info := q.extra_info ++ [("snooze_duration", Nat.repr dd)] }
                  else x)
                events := s.events ++ [⟨.snoozed, t, s.now⟩] } := by
            simp only [step, snooze_timer, hf]
            rw [if_pos hst]
          rw [hstep]
          dsimp only
          have hfx : ∀ x : TimerRecord,
              ((if x.id == t then
                { q with
                  status := .running
                  expires := s.now + (dd : ℤ)
                  updated_at := s.now
                  extra_info := q.extra_info ++ [("snooze_duration", Nat.repr dd)] }
                else x) : TimerRecord).id = x.id := by
            intro x
            by_cases hxt : x.id == t
            · rw [if_pos hxt]
              have : x.id = t := by simpa using hxt
              rw [this, ← hq]
            · rw [if_neg hxt]
          have hevents : wakeEventsFor T (s.events ++ [⟨.snoozed, t, s.now⟩]) =
              wakeEventsFor T s.events := by
            rw [wakeEventsFor_append]
            have he : wakeEventsFor T [(⟨.snoozed, t, s.now⟩ : Event)] = [] := by
              apply wakeEventsFor_nil_of_actions
              intro e' he'
              simp at he'
              subst he'
              exact ⟨by simp, by simp⟩
            rw [he, List.append_nil]
          have hfr : (if r.id == t then
              { q with
                status := .running
                expires := s.now + (dd : ℤ)
                updated_at := s.now
                extra_info := q.extra_info ++ [("snooze_duration", Nat.repr dd)] }
              else r) = r := by
            rw [if_neg]
            simp only [hid, beq_iff_eq]
            exact fun h => htT h.symm
          refine ⟨?_, ?_, ?_⟩
          · have hmapids : (s.store.map (fun x => if x.id == t then
                { q with
                  status := .running
                  expires := s.now + (dd : ℤ)
                  updated_at := s.now
                  extra_info := q.extra_info ++ [("snooze_duration", Nat.repr dd)] }
                else x)).map TimerRecord.id = s.store.map TimerRecord.id := by
              rw [List.map_map]
              apply List.map_congr_left
              intro x _
              exact hfx x
            rw [hmapids]
            exact hnd
          · intro x hx
            obtain ⟨y, hy, rfl⟩ := List.mem_map.mp hx
            rw [hfx y]
            exact hlt y hy
          · refine ⟨r, ?_, hid, hE, hWr, hdev, ?_⟩
            · exact List.mem_map.mpr ⟨r, hr, hfr⟩
            · rcases hphase with ⟨h1, h2, h3⟩ | ⟨h1, h2, h3⟩ | ⟨h1, h3⟩
              · exact Or.inl ⟨h1, h2, by rw [hevents]; exact h3⟩
              · exact Or.inr (Or.inl ⟨h1, h2, by rw [hevents]; exact h3⟩)
              · exact Or.inr (Or.inr ⟨h1, by rw [hevents]; exact h3⟩)
      · have heq : step s (.snooze t dur) = s := by
          simp only [step, snooze_timer, hf]
          rw [if_neg hst]
        rw [heq]
        exact ⟨hnd, hlt, r, hr, hid, hE, hWr, hdev, hphase⟩

/-- `C7Inv` is preserved by any interleaving that never touches the
watched timer. -/
lemma C7Inv_run (T : ℕ) (E : ℤ) (W : ℕ) (dev : String) (hW : 0 < W)
    (ops : List Op) :
    ∀ s : EngineState, C7Inv T E W dev s →
    (∀ op ∈ ops, touches T dev op = false) →
    C7Inv T E W dev (runOps s ops) := by
  induction ops with
  | nil => exact fun s h _ => h
  | cons op rest ih =>
    intro s hInv hops
    have h1 : touches T dev op = false := hops op (List.mem_cons_self _ _)
    have h2 : ∀ o ∈ rest, touches T dev o = false :=
      fun o ho => hops o (List.mem_cons_of_mem _ ho)
    exact ih (step s op) (C7Inv_step T E W dev hW s op hInv h1) h2

/-- C7. A non-cancelled timer with warning lead `W > 0`, watched from a
point before its warning instant through any interleaving that never
cancels or snoozes it: once the clock passes its expiry, the wake events
recorded for it are exactly one `warning` at `expires - W` followed by
exactly one `expired` at `expires`. -/
theorem C7_warning_then_expired (s : EngineState) (ops : List Op) (T : ℕ)
    (E : ℤ) (W : ℕ) (dev : String) (r : TimerRecord)
    (hW : 0 < W) (hnd : (s.store.map TimerRecord.id).Nodup)
    (hlt : ∀ q ∈ s.store, q.id < s.nextId)
    (hr : r ∈ s.store) (hid : r.id = T) (hE : r.expires = E)
    (hWr : r.pre_expire_warning = W) (hdev : r.device_id = dev)
    (hst : r.status = .running) (hnow : s.now < E - (W : ℤ))
    (hev : wakeEventsFor T s.events = [])
    (hops : ∀ op ∈ ops, touches T dev op = false)
    (hend : E ≤ (runOps s ops).now) :
    wakeEventsFor T (runOps s ops).events =
      [⟨.warning, T, E - (W : ℤ)⟩, ⟨.expired, T, E⟩] := by
  have hInv : C7Inv T E W dev (runOps s ops) :=
    C7Inv_run T E W dev hW ops s
      ⟨hnd, hlt, r, hr, hid, hE, hWr, hdev, Or.inl ⟨hst, hnow, hev⟩⟩ hops
  obtain ⟨-, -, r', _, _, _, _, _, hphase⟩ := hInv
  rcases hphase with ⟨-, h2, -⟩ | ⟨-, h2, -⟩ | ⟨-, h3⟩
  · omega
  · omega
  · exact h3

/-- Witness for C7: `sampleWarn` (expires 5, warning lead 2, created at
time 0) watched over five scheduler ticks: exactly one warning at 3, then
one expiry at 5. -/
theorem C7_warning_then_expired_witness :
    wakeEventsFor 0 (runOps sampleWarnState
        [Op.tick, Op.tick, Op.tick, Op.tick, Op.tick]).events =
      [⟨.warning, 0, 5 - ((2 : ℕ) : ℤ)⟩, ⟨.expired, 0, 5⟩] :=
  C7_warning_then_expired sampleWarnState
    [Op.tick, Op.tick, Op.tick, Op.tick, Op.tick] 0 5 2 "dev1" sampleWarn
    (by decide) (by decide) (by decide) (by decide) (by decide) (by decide)
    (by decide) (by decide) (by decide) (by decide) (by decide) (by decide)
    (by decide)

end ViewAssist
